import Mathlib

/-!
Verification of the Sudoku solver core in src/src/sudoku.cpp.

The grid is modelled as a total function from a pair of naturals to a
natural (the program only reads and writes cells whose row and column
are below 9; value 0 denotes an empty cell).  The two recursive solvers
are embedded with an explicit fuel argument counting call frames: a
fueled run returns none when the frame budget is exhausted, and we
prove frame budgets under which the wrappers agree with the recursion
of the source on every reachable position.
-/

set_option synthInstance.maxSize 2048

namespace Sudoku

abbrev Grid := Nat → Nat → Nat

/-- In-place write BOARD[r][c] = v of the source, as a functional update. -/
def setCell (g : Grid) (r c v : Nat) : Grid :=
  fun r' c' => if r' = r ∧ c' = c then v else g r' c'

/-- isValid from sudoku.cpp: one pass over row r and column c, then
one pass over the 3x3 block with origin (3*(r/3), 3*(c/3)); the digit k
is placeable iff no scanned cell already holds k. -/
def isValid (g : Grid) (r c k : Nat) : Bool :=
  ((List.range 9).all fun i => !(k == g r i) && !(k == g i c)) &&
  ((List.range 3).all fun i =>
    (List.range 3).all fun j =>
      !(k == g (3 * (r / 3) + i) (3 * (c / 3) + j)))

/-- The candidate loop for k = 1..9 shared by both solvers in
sudoku.cpp: try each digit of the list in order at the empty cell
(r, c); on a valid digit place it and run the recursive solver call
recur; propagate success, and on failure reset the cell to 0 and
continue with the next digit.  The grid is threaded explicitly in
place of the shared mutable BOARD. -/
def tryDigits (recur : Grid → Option (Bool × Grid)) (r c : Nat) :
    List Nat → Grid → Option (Bool × Grid)
  | [], g => some (false, g)
  | k :: ks, g =>
    if isValid g r c k then
      match recur (setCell g r c k) with
      | none => none
      | some (true, g') => some (true, g')
      | some (false, g') => tryDigits recur r c ks (setCell g' r c 0)
    else
      tryDigits recur r c ks g

def digits : List Nat := [1, 2, 3, 4, 5, 6, 7, 8, 9]

/-- solveBoard from sudoku.cpp with fuel counting nested call frames.
Each recursive call of the source consumes one unit of fuel; none
means the frame budget was exhausted before the recursion returned. -/
def solveBoardF : Nat → Grid → Nat → Nat → Option (Bool × Grid)
  | 0, _, _, _ => none
  | fuel + 1, g, r, c =>
    if r = 9 then some (true, g)
    else if c = 9 then solveBoardF fuel g (r + 1) 0
    else if g r c ≠ 0 then solveBoardF fuel g r (c + 1)
    else tryDigits (fun g' => solveBoardF fuel g' r (c + 1)) r c digits g

/-- solveBoard with the frame budget 91, which suffices for every run
starting anywhere in the 9x9 grid (proved below). -/
def solveBoard (g : Grid) (r c : Nat) : Bool × Grid :=
  (solveBoardF 91 g r c).getD (false, g)

/-- The per-cell candidate count of findNextCell: the source loops
for (int k = 0; k < 9; k++) and counts the digits k with
isValid(BOARD, r, c, k). -/
def countOptions (g : Grid) (r c : Nat) : Nat :=
  (List.range 9).countP fun k => isValid g r c k

/-- The 81 cells in the row-major scan order of findNextCell. -/
def cellsList : List (Nat × Nat) :=
  (List.range 9).flatMap fun r => (List.range 9).map fun c => (r, c)

/-- The scan loop of findNextCell from sudoku.cpp: walk the remaining
cells keeping the best cell seen (bestRow, bestCol) and its option
count minOptions; on an empty cell with strictly fewer options update
the best cell, returning immediately when its count is exactly 1; at
the end return the sentinel (-1, -1, 0) when no empty cell was seen. -/
def findNextCellAux (g : Grid) :
    List (Nat × Nat) → Int → Int → Int → Int × Int × Int
  | [], bestRow, bestCol, minOptions =>
    if bestRow = -1 ∧ bestCol = -1 then (-1, -1, 0)
    else (bestRow, bestCol, minOptions)
  | (r, c) :: rest, bestRow, bestCol, minOptions =>
    if g r c = 0 then
      if (countOptions g r c : Int) < minOptions then
        if countOptions g r c = 1 then
          ((r : Int), (c : Int), (countOptions g r c : Int))
        else
          findNextCellAux g rest (r : Int) (c : Int) (countOptions g r c : Int)
      else findNextCellAux g rest bestRow bestCol minOptions
    else findNextCellAux g rest bestRow bestCol minOptions

/-- findNextCell from sudoku.cpp; minOptions starts at INT_MAX. -/
def findNextCell (g : Grid) : Int × Int × Int :=
  findNextCellAux g cellsList (-1) (-1) 2147483647

/-- solveBoardEfficient from sudoku.cpp with fuel counting nested call
frames. -/
def solveBoardEfficientF : Nat → Grid → Option (Bool × Grid)
  | 0, _ => none
  | fuel + 1, g =>
    if (findNextCell g).1 = -1 ∧ (findNextCell g).2.1 = -1 then
      some (true, g)
    else
      tryDigits (fun g' => solveBoardEfficientF fuel g')
        (findNextCell g).1.toNat (findNextCell g).2.1.toNat digits g

/-- solveBoardEfficient with the frame budget 82, which suffices for
every grid (proved below). -/
def solveBoardEfficient (g : Grid) : Bool × Grid :=
  (solveBoardEfficientF 82 g).getD (false, g)

/-- solve from sudoku.cpp: dispatch on the efficient flag. -/
def solve (g : Grid) (efficient : Bool) : Bool × Grid :=
  if efficient then solveBoardEfficient g else solveBoard g 0 0

/-! ### Specification-side predicates -/

/-- Two cells lie in a common row, column or 3x3 block. -/
def sameUnit (p q : Nat × Nat) : Prop :=
  p.1 = q.1 ∨ p.2 = q.2 ∨ (p.1 / 3 = q.1 / 3 ∧ p.2 / 3 = q.2 / 3)

instance (p q : Nat × Nat) : Decidable (sameUnit p q) := by
  unfold sameUnit; exact inferInstance

/-- The input-grid hypothesis under which the solvers are sound: every
cell holds a value at most 9 and no two distinct cells of a common
row, column or block hold the same non-zero digit. -/
def Good (g : Grid) : Prop :=
  (∀ r < 9, ∀ c < 9, g r c ≤ 9) ∧
  (∀ r < 9, ∀ c < 9, ∀ r' < 9, ∀ c' < 9,
    (r, c) ≠ (r', c') → sameUnit (r, c) (r', c') → g r c ≠ 0 →
      g r c ≠ g r' c')

instance (g : Grid) : Decidable (Good g) := by
  unfold Good; exact inferInstance

/-- s agrees with g on every originally-filled cell of g. -/
def Compatible (g s : Grid) : Prop :=
  ∀ r < 9, ∀ c < 9, g r c ≠ 0 → s r c = g r c

instance (g s : Grid) : Decidable (Compatible g s) := by
  unfold Compatible; exact inferInstance

/-- A complete rule-valid grid: every cell holds a digit 1-9 and no
two distinct cells of a common row, column or block agree. -/
def Solution (s : Grid) : Prop :=
  (∀ r < 9, ∀ c < 9, 1 ≤ s r c ∧ s r c ≤ 9) ∧
  (∀ r < 9, ∀ c < 9, ∀ r' < 9, ∀ c' < 9,
    (r, c) ≠ (r', c') → sameUnit (r, c) (r', c') → s r c ≠ s r' c')

instance (s : Grid) : Decidable (Solution s) := by
  unfold Solution; exact inferInstance

/-- s is a valid completion of g. -/
def Completes (g s : Grid) : Prop :=
  Solution s ∧ Compatible g s

instance (g s : Grid) : Decidable (Completes g s) := by
  unfold Completes; exact inferInstance

/-- Agreement of two grids on all 81 cells of the board. -/
def EqOn (g g' : Grid) : Prop :=
  ∀ r < 9, ∀ c < 9, g r c = g' r c

instance (g g' : Grid) : Decidable (EqOn g g') := by
  unfold EqOn; exact inferInstance

/-- The i-th cell of row r. -/
def rowCells (r : Nat) : Nat → Nat × Nat := fun i => (r, i)

/-- The i-th cell of column c. -/
def colCells (c : Nat) : Nat → Nat × Nat := fun i => (i, c)

/-- The i-th cell of the b-th 3x3 block. -/
def blockCells (b : Nat) : Nat → Nat × Nat :=
  fun i => (3 * (b / 3) + i / 3, 3 * (b % 3) + i % 3)

/-- Each digit 1-9 appears exactly once among the nine cells of the
unit u. -/
def unitOnce (g : Grid) (u : Nat → Nat × Nat) : Prop :=
  ∀ k ≤ 9, 1 ≤ k →
    ((∃ i < 9, g (u i).1 (u i).2 = k) ∧
      ∀ i < 9, ∀ j < 9,
        g (u i).1 (u i).2 = k → g (u j).1 (u j).2 = k → i = j)

instance (g : Grid) (u : Nat → Nat × Nat) : Decidable (unitOnce g u) := by
  unfold unitOnce; exact inferInstance

/-- Every row, every column and every 3x3 block contains each digit
1-9 exactly once. -/
def Solved (g : Grid) : Prop :=
  (∀ r < 9, unitOnce g (rowCells r)) ∧
  (∀ c < 9, unitOnce g (colCells c)) ∧
  (∀ b < 9, unitOnce g (blockCells b))

instance (g : Grid) : Decidable (Solved g) := by
  unfold Solved; exact inferInstance

/-! ### Basic lemmas about cell updates -/

theorem setCell_same (g : Grid) (r c v : Nat) : setCell g r c v r c = v := by
  simp [setCell]

theorem setCell_other (g : Grid) (r c v r' c' : Nat)
    (h : ¬(r' = r ∧ c' = c)) : setCell g r c v r' c' = g r' c' := by
  simp [setCell, h]

theorem setCell_setCell (g : Grid) (r c a b : Nat) :
    setCell (setCell g r c a) r c b = setCell g r c b := by
  funext r' c'
  by_cases h : r' = r ∧ c' = c <;> simp [setCell, h]

theorem setCell_self (g : Grid) (r c : Nat) (h : g r c = 0) :
    setCell g r c 0 = g := by
  funext r' c'
  by_cases h' : r' = r ∧ c' = c
  · rcases h' with ⟨h1, h2⟩; subst h1; subst h2; simp [setCell, h]
  · simp [setCell, h']

/-! ### Characterization of isValid -/

theorem isValid_true_iff (g : Grid) (r c k : Nat) :
    isValid g r c k = true ↔
      (∀ i < 9, g r i ≠ k) ∧ (∀ i < 9, g i c ≠ k) ∧
      (∀ i < 3, ∀ j < 3, g (3 * (r / 3) + i) (3 * (c / 3) + j) ≠ k) := by
  simp only [isValid, Bool.and_eq_true, List.all_eq_true, List.mem_range,
    Bool.not_eq_true', beq_eq_false_iff_ne, ne_eq]
  constructor
  · rintro ⟨h1, h2⟩
    refine ⟨fun i hi e => (h1 i hi).1 e.symm,
            fun i hi e => (h1 i hi).2 e.symm,
            fun i hi j hj e => h2 i hi j hj e.symm⟩
  · rintro ⟨h1, h2, h3⟩
    exact ⟨fun i hi => ⟨fun e => h1 i hi e.symm, fun e => h2 i hi e.symm⟩,
      fun i hi j hj e => h3 i hi j hj e.symm⟩

theorem isValid_false_iff (g : Grid) (r c k : Nat) :
    isValid g r c k = false ↔
      ((∃ i < 9, g r i = k) ∨ (∃ i < 9, g i c = k) ∨
        ∃ i < 3, ∃ j < 3, g (3 * (r / 3) + i) (3 * (c / 3) + j) = k) := by
  constructor
  · intro hf
    by_contra hocc
    push_neg at hocc
    obtain ⟨h1, h2, h3⟩ := hocc
    have ht := (isValid_true_iff g r c k).mpr ⟨h1, h2, h3⟩
    rw [hf] at ht
    cases ht
  · intro hocc
    cases hv : isValid g r c k
    · rfl
    · exfalso
      rcases (isValid_true_iff g r c k).mp hv with ⟨h1, h2, h3⟩
      rcases hocc with ⟨i, hi, he⟩ | ⟨i, hi, he⟩ | ⟨i, hi, j, hj, he⟩
      exacts [h1 i hi he, h2 i hi he, h3 i hi j hj he]

/-- Querying digit 0 at an empty in-range cell always collides: the
cell's own 0 is seen by the row scan at i = c. -/
theorem isValid_zero (g : Grid) (r c : Nat) (hc : c < 9) (h : g r c = 0) :
    isValid g r c 0 = false :=
  (isValid_false_iff g r c 0).mpr (Or.inl ⟨c, hc, h⟩)

/-! ### The candidate count of findNextCell -/

theorem range9_eq : List.range 9 = [0, 1, 2, 3, 4, 5, 6, 7, 8] := by decide

theorem range8_eq : List.range 8 = [0, 1, 2, 3, 4, 5, 6, 7] := by decide

/-- At an empty in-range cell the count over the loop k = 0..8 equals
the count over the digits 1..8: digit 0 is never counted. -/
theorem countOptions_eq (g : Grid) (r c : Nat) (hc : c < 9) (h0 : g r c = 0) :
    countOptions g r c =
      (List.range 8).countP fun i => isValid g r c (i + 1) := by
  simp only [countOptions, range9_eq, range8_eq, List.countP_cons,
    List.countP_nil, isValid_zero g r c hc h0]
  norm_num

/-- When the digits 1..9 legal at an empty in-range cell are exactly
d, the loop of findNextCell counts 1 if d is at most 8 and 0 if d is
9. -/
theorem countOptions_of_unique (g : Grid) (r c d : Nat) (hc : c < 9)
    (h0 : g r c = 0) (hd1 : 1 ≤ d) (hd9 : d ≤ 9)
    (hv : isValid g r c d = true)
    (hu : ∀ k, 1 ≤ k → k ≤ 9 → k ≠ d → isValid g r c k = false) :
    countOptions g r c = if d ≤ 8 then 1 else 0 := by
  simp only [countOptions, range9_eq, List.countP_cons, List.countP_nil,
    isValid_zero g r c hc h0]
  interval_cases d <;> simp_all

/-! ### Generic lemmas about the digit loop -/

/-- If every recursive call restores the grid on failure, the digit
loop restores the grid on failure as well. -/
theorem tryDigits_false (recur : Grid → Option (Bool × Grid)) (r c : Nat)
    (hrec : ∀ g g', recur g = some (false, g') → g' = g) :
    ∀ ks g g', g r c = 0 → tryDigits recur r c ks g = some (false, g') →
      g' = g := by
  intro ks
  induction ks with
  | nil =>
    intro g g' hg h
    simp only [tryDigits, Option.some.injEq, Prod.mk.injEq, true_and] at h
    exact h.symm
  | cons k ks ih =>
    intro g g' hg h
    simp only [tryDigits] at h
    by_cases hv : isValid g r c k
    · rw [if_pos hv] at h
      cases hrek : recur (setCell g r c k) with
      | none => rw [hrek] at h; cases h
      | some p =>
        rcases p with ⟨b, g₂⟩
        cases b
        · rw [hrek] at h
          have hg₂ := hrec _ _ hrek
          have h2 : tryDigits recur r c ks (setCell g₂ r c 0) =
              some (false, g') := h
          rw [hg₂, setCell_setCell, setCell_self g r c hg] at h2
          exact ih g g' hg h2
        · rw [hrek] at h
          simp at h
    · rw [if_neg hv] at h
      exact ih g g' hg h

/-- On success the digit loop placed some digit of the list at the
empty cell and the recursive call on the updated grid succeeded. -/
theorem tryDigits_true_ex (recur : Grid → Option (Bool × Grid)) (r c : Nat)
    (hrec : ∀ g g', recur g = some (false, g') → g' = g) :
    ∀ ks g g', g r c = 0 → tryDigits recur r c ks g = some (true, g') →
      ∃ k ∈ ks, isValid g r c k = true ∧
        recur (setCell g r c k) = some (true, g') := by
  intro ks
  induction ks with
  | nil =>
    intro g g' hg h
    simp [tryDigits] at h
  | cons k ks ih =>
    intro g g' hg h
    simp only [tryDigits] at h
    by_cases hv : isValid g r c k
    · rw [if_pos hv] at h
      cases hrek : recur (setCell g r c k) with
      | none => rw [hrek] at h; cases h
      | some p =>
        rcases p with ⟨b, g₂⟩
        cases b
        · rw [hrek] at h
          have hg₂ := hrec _ _ hrek
          have h2 : tryDigits recur r c ks (setCell g₂ r c 0) =
              some (true, g') := h
          rw [hg₂, setCell_setCell, setCell_self g r c hg] at h2
          rcases ih g g' hg h2 with ⟨k', hk', hvk', hrk'⟩
          exact ⟨k', List.mem_cons_of_mem _ hk', hvk', hrk'⟩
        · rw [hrek] at h
          simp only [Option.some.injEq, Prod.mk.injEq, true_and] at h
          exact ⟨k, List.mem_cons_self k ks, hv, by rw [hrek, h]⟩
    · rw [if_neg hv] at h
      rcases ih g g' hg h with ⟨k', hk', hvk', hrk'⟩
      exact ⟨k', List.mem_cons_of_mem _ hk', hvk', hrk'⟩

/-- If every recursive call of the loop answers within its budget, the
loop answers. -/
theorem tryDigits_isSome (recur : Grid → Option (Bool × Grid)) (r c : Nat)
    (hrec : ∀ g g', recur g = some (false, g') → g' = g) :
    ∀ ks g, g r c = 0 → (∀ k ∈ ks, (recur (setCell g r c k)).isSome) →
      (tryDigits recur r c ks g).isSome := by
  intro ks
  induction ks with
  | nil => intro g _ _; simp [tryDigits]
  | cons k ks ih =>
    intro g hg hall
    simp only [tryDigits]
    by_cases hv : isValid g r c k
    · rw [if_pos hv]
      cases hrek : recur (setCell g r c k) with
      | none =>
        have := hall k (List.mem_cons_self k ks)
        rw [hrek] at this
        cases this
      | some p =>
        rcases p with ⟨b, g₂⟩
        cases b
        · have hg₂ := hrec _ _ hrek
          show (tryDigits recur r c ks (setCell g₂ r c 0)).isSome = true
          rw [hg₂, setCell_setCell, setCell_self g r c hg]
          exact ih g hg fun k' hk' => hall k' (List.mem_cons_of_mem _ hk')
        · simp
    · rw [if_neg hv]
      exact ih g hg fun k' hk' => hall k' (List.mem_cons_of_mem _ hk')

/-- If some digit of the list is valid and its recursive call cannot
fail, the loop cannot fail. -/
theorem tryDigits_not_false (recur : Grid → Option (Bool × Grid))
    (r c d : Nat)
    (hrec : ∀ g g', recur g = some (false, g') → g' = g) :
    ∀ ks g, g r c = 0 → d ∈ ks → isValid g r c d = true →
      (∀ g'', recur (setCell g r c d) ≠ some (false, g'')) →
      ∀ g', tryDigits recur r c ks g ≠ some (false, g') := by
  intro ks
  induction ks with
  | nil => intro g _ hd; cases hd
  | cons k ks ih =>
    intro g hg hd hv hrecd g' h
    simp only [tryDigits] at h
    by_cases hvk : isValid g r c k
    · rw [if_pos hvk] at h
      cases hrek : recur (setCell g r c k) with
      | none => rw [hrek] at h; cases h
      | some p =>
        rcases p with ⟨b, g₂⟩
        cases b
        · rw [hrek] at h
          have hg₂ := hrec _ _ hrek
          by_cases hkd : k = d
          · subst hkd
            exact hrecd g₂ hrek
          · have hd' : d ∈ ks := by
              rcases List.mem_cons.mp hd with h' | h'
              · exact absurd h'.symm hkd
              · exact h'
            have h2 : tryDigits recur r c ks (setCell g₂ r c 0) =
                some (false, g') := h
            rw [hg₂, setCell_setCell, setCell_self g r c hg] at h2
            exact ih g hg hd' hv hrecd g' h2
        · rw [hrek] at h
          simp at h
    · rw [if_neg hvk] at h
      have hd' : d ∈ ks := by
        rcases List.mem_cons.mp hd with h' | h'
        · subst h'; exact absurd hv (by simp [hvk])
        · exact h'
      exact ih g hg hd' hv hrecd g' h

theorem mem_digits (k : Nat) (h1 : 1 ≤ k) (h9 : k ≤ 9) : k ∈ digits := by
  simp only [digits, List.mem_cons, List.mem_singleton]
  omega

theorem digits_bounds (k : Nat) (h : k ∈ digits) : 1 ≤ k ∧ k ≤ 9 := by
  simp only [digits, List.mem_cons, List.not_mem_nil, or_false] at h
  omega

theorem sameUnit_symm (p q : Nat × Nat) (h : sameUnit p q) : sameUnit q p := by
  rcases h with h | h | ⟨h1, h2⟩
  · exact Or.inl h.symm
  · exact Or.inr (Or.inl h.symm)
  · exact Or.inr (Or.inr ⟨h1.symm, h2.symm⟩)

/-! ### The row-major solver: failure restores the grid -/

theorem solveBoardF_false :
    ∀ fuel g r c g', solveBoardF fuel g r c = some (false, g') → g' = g := by
  intro fuel
  induction fuel with
  | zero => intro g r c g' h; cases h
  | succ fuel ih =>
    intro g r c g' h
    simp only [solveBoardF] at h
    by_cases hr : r = 9
    · rw [if_pos hr] at h; simp at h
    · rw [if_neg hr] at h
      by_cases hc : c = 9
      · rw [if_pos hc] at h
        exact ih _ _ _ _ h
      · rw [if_neg hc] at h
        by_cases hnz : g r c ≠ 0
        · rw [if_pos hnz] at h
          exact ih _ _ _ _ h
        · rw [if_neg hnz] at h
          push_neg at hnz
          exact tryDigits_false _ r c (fun g₁ g₂ => ih g₁ r (c + 1) g₂)
            digits g g' hnz h

/-- A digit accepted by isValid collides with no in-range cell of the
row, column or block of (r, c). -/
theorem isValid_no_collision (g : Grid) (r c k : Nat)
    (hv : isValid g r c k = true) (r' c' : Nat) (hr' : r' < 9) (hc' : c' < 9)
    (hsu : sameUnit (r', c') (r, c)) : g r' c' ≠ k := by
  rcases (isValid_true_iff g r c k).mp hv with ⟨h1, h2, h3⟩
  rcases hsu with h | h | ⟨hb1, hb2⟩
  · simp only at h
    subst h
    exact h1 c' hc'
  · simp only at h
    subst h
    exact h2 r' hr'
  · simp only at hb1 hb2
    have e1 : 3 * (r / 3) + r' % 3 = r' := by omega
    have e2 : 3 * (c / 3) + c' % 3 = c' := by omega
    have := h3 (r' % 3) (Nat.mod_lt _ (by norm_num))
      (c' % 3) (Nat.mod_lt _ (by norm_num))
    rwa [e1, e2] at this

/-- Placing a digit accepted by isValid at an empty cell preserves the
soundness invariant. -/
theorem Good_setCell (g : Grid) (r c k : Nat) (hr : r < 9) (hc : c < 9)
    (hg : g r c = 0) (hk9 : k ≤ 9)
    (hv : isValid g r c k = true) (hgood : Good g) : Good (setCell g r c k) := by
  obtain ⟨hval, hpair⟩ := hgood
  constructor
  · intro r' hr' c' hc'
    by_cases h : r' = r ∧ c' = c
    · rcases h with ⟨rfl, rfl⟩
      rw [setCell_same]
      exact hk9
    · rw [setCell_other g r c k r' c' h]
      exact hval r' hr' c' hc'
  · intro r₁ hr₁ c₁ hc₁ r₂ hr₂ c₂ hc₂ hne hsu hnz
    by_cases h1 : r₁ = r ∧ c₁ = c
    · rcases h1 with ⟨rfl, rfl⟩
      rw [setCell_same]
      by_cases h2 : r₂ = r₁ ∧ c₂ = c₁
      · exact absurd (Prod.ext h2.1.symm h2.2.symm) hne
      · rw [setCell_other g r₁ c₁ k r₂ c₂ h2]
        intro he
        exact isValid_no_collision g r₁ c₁ k hv r₂ c₂ hr₂ hc₂
          (sameUnit_symm _ _ hsu) he.symm
    · rw [setCell_other g r c k r₁ c₁ h1]
      rw [setCell_other g r c k r₁ c₁ h1] at hnz
      by_cases h2 : r₂ = r ∧ c₂ = c
      · rcases h2 with ⟨rfl, rfl⟩
        rw [setCell_same]
        exact isValid_no_collision g r₂ c₂ k hv r₁ c₁ hr₁ hc₁ hsu
      · rw [setCell_other g r c k r₂ c₂ h2]
        exact hpair r₁ hr₁ c₁ hc₁ r₂ hr₂ c₂ hc₂ hne hsu hnz

/-- Soundness of the row-major solver: on success the result extends
the input on non-empty cells, keeps the invariant, and fills every
cell at or after the cursor. -/
theorem solveBoardF_true :
    ∀ fuel g r c g₁, solveBoardF fuel g r c = some (true, g₁) →
      r ≤ 9 → c ≤ 9 →
      (∀ r' c', g r' c' ≠ 0 → g₁ r' c' = g r' c') ∧
      (Good g → Good g₁) ∧
      (∀ r' c', r' < 9 → c' < 9 → 10 * r + c ≤ 10 * r' + c' →
        g₁ r' c' ≠ 0) := by
  intro fuel
  induction fuel with
  | zero => intro g r c g₁ h; cases h
  | succ fuel ih =>
    intro g r c g₁ h hr hc
    simp only [solveBoardF] at h
    by_cases hr9 : r = 9
    · rw [if_pos hr9] at h
      simp only [Option.some.injEq, Prod.mk.injEq, true_and] at h
      subst h
      refine ⟨fun _ _ _ => rfl, id, fun r' c' hr' hc' hidx => ?_⟩
      omega
    · rw [if_neg hr9] at h
      by_cases hc9 : c = 9
      · rw [if_pos hc9] at h
        obtain ⟨he, hgo, haf⟩ := ih _ _ _ _ h (by omega) (by omega)
        exact ⟨he, hgo, fun r' c' hr' hc' hidx => haf r' c' hr' hc' (by omega)⟩
      · rw [if_neg hc9] at h
        by_cases hnz : g r c ≠ 0
        · rw [if_pos hnz] at h
          obtain ⟨he, hgo, haf⟩ := ih _ _ _ _ h (by omega) (by omega)
          refine ⟨he, hgo, fun r' c' hr' hc' hidx => ?_⟩
          by_cases hcell : r' = r ∧ c' = c
          · rcases hcell with ⟨rfl, rfl⟩
            rw [he r' c' hnz]
            exact hnz
          · exact haf r' c' hr' hc' (by omega)
        · rw [if_neg hnz] at h
          push_neg at hnz
          obtain ⟨k, hkmem, hkv, hrek⟩ :=
            tryDigits_true_ex _ r c
              (fun g₁ g₂ => solveBoardF_false fuel g₁ r (c + 1) g₂)
              digits g g₁ hnz h
          obtain ⟨hk1, hk9⟩ := digits_bounds k hkmem
          obtain ⟨he, hgo, haf⟩ := ih _ _ _ _ hrek (by omega) (by omega)
          have hset : ∀ r' c', g r' c' ≠ 0 → setCell g r c k r' c' = g r' c' := by
            intro r' c' hnz'
            apply setCell_other
            rintro ⟨rfl, rfl⟩
            exact hnz' hnz
          refine ⟨?_, ?_, ?_⟩
          · intro r' c' hnz'
            rw [he r' c' (by rw [hset r' c' hnz']; exact hnz'), hset r' c' hnz']
          · intro hgood
            exact hgo (Good_setCell g r c k (by omega) (by omega) hnz hk9
              hkv hgood)
          · intro r' c' hr' hc' hidx
            by_cases hcell : r' = r ∧ c' = c
            · rcases hcell with ⟨rfl, rfl⟩
              have : setCell g r' c' k r' c' ≠ 0 := by
                rw [setCell_same]; omega
              rw [he r' c' this]
              exact this
            · exact haf r' c' hr' hc' (by omega)

/-- Frame budget for the row-major solver: from position (r, c) the
recursion needs at most max 1 (91 - (10r + c)) frames. -/
theorem solveBoardF_isSome :
    ∀ fuel r c g, r ≤ 9 → c ≤ 9 → 1 ≤ fuel →
      91 - (10 * r + c) ≤ fuel → (solveBoardF fuel g r c).isSome := by
  intro fuel
  induction fuel with
  | zero => intro r c g _ _ h1 _; omega
  | succ fuel ih =>
    intro r c g hr hc _ hf
    simp only [solveBoardF]
    by_cases hr9 : r = 9
    · rw [if_pos hr9]; simp
    · rw [if_neg hr9]
      by_cases hc9 : c = 9
      · rw [if_pos hc9]
        exact ih (r + 1) 0 g (by omega) (by omega) (by omega) (by omega)
      · rw [if_neg hc9]
        by_cases hnz : g r c ≠ 0
        · rw [if_pos hnz]
          exact ih r (c + 1) g (by omega) (by omega) (by omega) (by omega)
        · rw [if_neg hnz]
          push_neg at hnz
          exact tryDigits_isSome _ r c
            (fun g₁ g₂ => solveBoardF_false fuel g₁ r (c + 1) g₂)
            digits g hnz
            (fun k _ => ih r (c + 1) _ (by omega) (by omega) (by omega)
              (by omega))

/-- On a grid with no empty in-range cell the row-major solver only
skips and succeeds without touching the grid. -/
theorem solveBoardF_filled :
    ∀ fuel g r c, r ≤ 9 → c ≤ 9 → 1 ≤ fuel → 91 - (10 * r + c) ≤ fuel →
      (∀ r' c', r' < 9 → c' < 9 → g r' c' ≠ 0) →
      solveBoardF fuel g r c = some (true, g) := by
  intro fuel
  induction fuel with
  | zero => intro g r c _ _ h1 _ _; omega
  | succ fuel ih =>
    intro g r c hr hc _ hf hfull
    simp only [solveBoardF]
    by_cases hr9 : r = 9
    · rw [if_pos hr9]
    · rw [if_neg hr9]
      by_cases hc9 : c = 9
      · rw [if_pos hc9]
        exact ih g (r + 1) 0 (by omega) (by omega) (by omega) (by omega) hfull
      · rw [if_neg hc9]
        rw [if_pos (hfull r c (by omega) (by omega))]
        exact ih g r (c + 1) (by omega) (by omega) (by omega) (by omega) hfull

/-- The digit a solution puts at an empty cell is accepted by isValid
on any compatible grid. -/
theorem isValid_solution (g s : Grid) (r c : Nat) (hr : r < 9) (hc : c < 9)
    (hg : g r c = 0) (hsol : Solution s) (hcomp : Compatible g s) :
    isValid g r c (s r c) = true := by
  obtain ⟨hrange, hdist⟩ := hsol
  cases hv : isValid g r c (s r c)
  · exfalso
    have h1 : 1 ≤ s r c := (hrange r hr c hc).1
    rcases (isValid_false_iff g r c (s r c)).mp hv with
      ⟨i, hi, he⟩ | ⟨i, hi, he⟩ | ⟨i, hi, j, hj, he⟩
    · have hnz : g r i ≠ 0 := by omega
      have hsi : s r i = g r i := hcomp r hr i hi hnz
      have hic : i ≠ c := by
        intro e; subst e; omega
      exact hdist r hr i hi r hr c hc (by simp [hic]) (Or.inl rfl)
        (by rw [hsi, he])
    · have hnz : g i c ≠ 0 := by omega
      have hsi : s i c = g i c := hcomp i hi c hc hnz
      have hir : i ≠ r := by
        intro e; subst e; omega
      exact hdist i hi c hc r hr c hc (by simp [hir]) (Or.inr (Or.inl rfl))
        (by rw [hsi, he])
    · set r' := 3 * (r / 3) + i with hr'def
      set c' := 3 * (c / 3) + j with hc'def
      have hr' : r' < 9 := by omega
      have hc' : c' < 9 := by omega
      have hnz : g r' c' ≠ 0 := by omega
      have hsi : s r' c' = g r' c' := hcomp r' hr' c' hc' hnz
      have hne : ¬(r' = r ∧ c' = c) := by
        rintro ⟨e1, e2⟩
        rw [e1, e2] at he
        omega
      have hsu : sameUnit (r', c') (r, c) := by
        refine Or.inr (Or.inr ⟨?_, ?_⟩)
        · simp only; omega
        · simp only; omega
      exact hdist r' hr' c' hc' r hr c hc
        (by simpa [Prod.ext_iff] using hne) hsu (by rw [hsi, he])
  · rfl

/-- Completeness of the row-major solver: when a compatible solution
exists and every cell before the cursor is filled, the run cannot
return false. -/
theorem solveBoardF_not_false :
    ∀ fuel g r c, r ≤ 9 → c ≤ 9 →
      (∃ s, Solution s ∧ Compatible g s ∧
        (∀ r' c', r' < 9 → c' < 9 → 10 * r' + c' < 10 * r + c →
          g r' c' ≠ 0)) →
      ∀ g', solveBoardF fuel g r c ≠ some (false, g') := by
  intro fuel
  induction fuel with
  | zero => intro g r c _ _ _ g' h; cases h
  | succ fuel ih =>
    intro g r c hr hc hex g' h
    obtain ⟨s, hsol, hcomp, hpre⟩ := hex
    simp only [solveBoardF] at h
    by_cases hr9 : r = 9
    · rw [if_pos hr9] at h; simp at h
    · rw [if_neg hr9] at h
      by_cases hc9 : c = 9
      · rw [if_pos hc9] at h
        refine ih g (r + 1) 0 (by omega) (by omega)
          ⟨s, hsol, hcomp, fun r' c' hr' hc' hidx => ?_⟩ g' h
        subst hc9
        exact hpre r' c' hr' hc' (by omega)
      · rw [if_neg hc9] at h
        by_cases hnz : g r c ≠ 0
        · rw [if_pos hnz] at h
          refine ih g r (c + 1) (by omega) (by omega)
            ⟨s, hsol, hcomp, fun r' c' hr' hc' hidx => ?_⟩ g' h
          by_cases hcell : r' = r ∧ c' = c
          · rcases hcell with ⟨rfl, rfl⟩; exact hnz
          · exact hpre r' c' hr' hc' (by omega)
        · rw [if_neg hnz] at h
          push_neg at hnz
          have hd1 : 1 ≤ s r c := (hsol.1 r (by omega) c (by omega)).1
          have hd9 : s r c ≤ 9 := (hsol.1 r (by omega) c (by omega)).2
          have hvd : isValid g r c (s r c) = true :=
            isValid_solution g s r c (by omega) (by omega) hnz hsol hcomp
          refine tryDigits_not_false _ r c (s r c)
            (fun g₁ g₂ => solveBoardF_false fuel g₁ r (c + 1) g₂)
            digits g hnz (mem_digits _ hd1 hd9) hvd ?_ g' h
          intro g'' hcall
          refine ih (setCell g r c (s r c)) r (c + 1) (by omega) (by omega)
            ⟨s, hsol, ?_, ?_⟩ g'' hcall
          · intro r' hr' c' hc' hnz'
            by_cases hcell : r' = r ∧ c' = c
            · rcases hcell with ⟨rfl, rfl⟩
              rw [setCell_same]
            · rw [setCell_other g r c _ r' c' hcell]
              rw [setCell_other g r c _ r' c' hcell] at hnz'
              exact hcomp r' hr' c' hc' hnz'
          · intro r' c' hr' hc' hidx
            by_cases hcell : r' = r ∧ c' = c
            · rcases hcell with ⟨rfl, rfl⟩
              rw [setCell_same]
              omega
            · rw [setCell_other g r c _ r' c' hcell]
              exact hpre r' c' hr' hc' (by omega)

/-! ### The MRV scan of findNextCell -/

theorem cellsList_bounds : ∀ p ∈ cellsList, p.1 < 9 ∧ p.2 < 9 := by decide

theorem cellsList_nodup : cellsList.Nodup := by decide

theorem mem_cellsList (r c : Nat) (hr : r < 9) (hc : c < 9) :
    (r, c) ∈ cellsList := by
  simp only [cellsList, List.mem_flatMap, List.mem_map, List.mem_range]
  exact ⟨r, hr, c, hc, rfl⟩

/-- Scanning over cells that are all filled changes nothing. -/
theorem findNextCellAux_append (g : Grid) :
    ∀ cells₁ cells₂ (bR bC m : Int),
      (∀ p ∈ cells₁, g p.1 p.2 ≠ 0) →
      findNextCellAux g (cells₁ ++ cells₂) bR bC m =
        findNextCellAux g cells₂ bR bC m := by
  intro cells₁
  induction cells₁ with
  | nil => intro cells₂ bR bC m _; rfl
  | cons p rest ih =>
    rcases p with ⟨pr, pc⟩
    intro cells₂ bR bC m hfill
    have hp : g pr pc ≠ 0 := hfill (pr, pc) (List.mem_cons_self _ _)
    simp only [List.cons_append, findNextCellAux, if_neg hp]
    exact ih cells₂ bR bC m fun q hq => hfill q (List.mem_cons_of_mem _ hq)

/-- Ending the scan on filled cells returns the tracked best cell, or
the sentinel when none was recorded. -/
theorem findNextCellAux_filled (g : Grid) :
    ∀ cells (bR bC m : Int),
      (∀ p ∈ cells, g p.1 p.2 ≠ 0) →
      findNextCellAux g cells bR bC m =
        if bR = -1 ∧ bC = -1 then (-1, -1, 0) else (bR, bC, m) := by
  intro cells bR bC m hfill
  have h := findNextCellAux_append g cells [] bR bC m hfill
  rw [List.append_nil] at h
  rw [h]
  rfl

/-- On a grid whose only empty in-range cell is (r, c), findNextCell
returns (r, c) with the loop's count of that cell, for counts at most
one. -/
theorem findNextCell_single (g : Grid) (r c n : Nat) (hr : r < 9) (hc : c < 9)
    (hg : g r c = 0)
    (hothers : ∀ r' c', r' < 9 → c' < 9 → ¬(r' = r ∧ c' = c) → g r' c' ≠ 0)
    (hcount : countOptions g r c = n) (hn : n ≤ 1) :
    findNextCell g = ((r : Int), (c : Int), (n : Int)) := by
  obtain ⟨l₁, l₂, hsplit⟩ := List.append_of_mem (mem_cellsList r c hr hc)
  have hnd : (l₁ ++ (r, c) :: l₂).Nodup := by
    rw [← hsplit]; exact cellsList_nodup
  have hmem₁ : (r, c) ∉ l₁ := by
    intro hm
    exact (List.disjoint_of_nodup_append hnd) hm (List.mem_cons_self _ _)
  have hmem₂ : (r, c) ∉ l₂ := by
    have := (List.nodup_append.mp hnd).2.1
    exact (List.nodup_cons.mp this).1
  have hbounds : ∀ p ∈ l₁ ++ (r, c) :: l₂, p.1 < 9 ∧ p.2 < 9 := by
    rw [← hsplit]; exact cellsList_bounds
  have hfill₁ : ∀ p ∈ l₁, g p.1 p.2 ≠ 0 := by
    intro p hp
    have hb := hbounds p (List.mem_append_left _ hp)
    refine hothers p.1 p.2 hb.1 hb.2 ?_
    rintro ⟨h1, h2⟩
    have hpe : p = (r, c) := Prod.ext h1 h2
    exact hmem₁ (hpe ▸ hp)
  have hfill₂ : ∀ p ∈ l₂, g p.1 p.2 ≠ 0 := by
    intro p hp
    have hb := hbounds p (List.mem_append_right _ (List.mem_cons_of_mem _ hp))
    refine hothers p.1 p.2 hb.1 hb.2 ?_
    rintro ⟨h1, h2⟩
    have hpe : p = (r, c) := Prod.ext h1 h2
    exact hmem₂ (hpe ▸ hp)
  rw [findNextCell, hsplit, findNextCellAux_append g l₁ _ _ _ _ hfill₁]
  simp only [findNextCellAux, if_pos hg, hcount]
  rw [if_pos (by omega : (n : Int) < 2147483647)]
  by_cases hn1 : n = 1
  · rw [if_pos hn1, hn1]
  · rw [if_neg hn1]
    rw [findNextCellAux_filled g l₂ _ _ _ hfill₂]
    rw [if_neg (by rintro ⟨e, _⟩; omega)]

/-- Invariant of the scan: when a cell with fewer options than the
running minimum remains, or the tracked best cell is real, the scan
does not return the sentinel. -/
theorem findNextCellAux_nonsent (g : Grid) :
    ∀ cells (bR bC m : Int),
      ((∃ p ∈ cells, g p.1 p.2 = 0 ∧ (countOptions g p.1 p.2 : Int) < m) ∨
        ¬(bR = -1 ∧ bC = -1)) →
      ¬((findNextCellAux g cells bR bC m).1 = -1 ∧
        (findNextCellAux g cells bR bC m).2.1 = -1) := by
  intro cells
  induction cells with
  | nil =>
    intro bR bC m h
    rcases h with ⟨p, hp, _⟩ | h
    · cases hp
    · simp only [findNextCellAux, if_neg h]
      exact h
  | cons p rest ih =>
    rcases p with ⟨pr, pc⟩
    intro bR bC m h
    simp only [findNextCellAux]
    by_cases hpg : g pr pc = 0
    · rw [if_pos hpg]
      by_cases hlt : (countOptions g pr pc : Int) < m
      · rw [if_pos hlt]
        by_cases hp1 : countOptions g pr pc = 1
        · rw [if_pos hp1]
          rintro ⟨e, _⟩
          omega
        · rw [if_neg hp1]
          refine ih _ _ _ (Or.inr ?_)
          rintro ⟨e, _⟩
          omega
      · rw [if_neg hlt]
        refine ih _ _ _ ?_
        rcases h with ⟨q, hq, hq0, hqlt⟩ | h
        · rcases List.mem_cons.mp hq with rfl | hq'
          · exact absurd hqlt hlt
          · exact Or.inl ⟨q, hq', hq0, hqlt⟩
        · exact Or.inr h
    · rw [if_neg hpg]
      refine ih _ _ _ ?_
      rcases h with ⟨q, hq, hq0, hqlt⟩ | h
      · rcases List.mem_cons.mp hq with rfl | hq'
        · exact absurd hq0 hpg
        · exact Or.inl ⟨q, hq', hq0, hqlt⟩
      · exact Or.inr h

/-- A grid with an empty in-range cell never yields the sentinel. -/
theorem findNextCell_nonsent (g : Grid) (r c : Nat) (hr : r < 9) (hc : c < 9)
    (hg : g r c = 0) :
    ¬((findNextCell g).1 = -1 ∧ (findNextCell g).2.1 = -1) := by
  refine findNextCellAux_nonsent g cellsList (-1) (-1) 2147483647
    (Or.inl ⟨(r, c), mem_cellsList r c hr hc, hg, ?_⟩)
  show (countOptions g r c : Int) < 2147483647
  have : countOptions g r c ≤ 9 := by
    have := List.countP_le_length (l := List.range 9)
      (p := fun k => isValid g r c k)
    simpa [countOptions] using this
  omega

/-- The sentinel means every in-range cell is filled. -/
theorem findNextCell_of_filled (g : Grid)
    (hfull : ∀ r' c', r' < 9 → c' < 9 → g r' c' ≠ 0) :
    findNextCell g = (-1, -1, 0) := by
  rw [findNextCell, findNextCellAux_filled g cellsList _ _ _
    (fun p hp => hfull p.1 p.2 (cellsList_bounds p hp).1 (cellsList_bounds p hp).2)]
  simp

/-- Characterization of the scan result: sentinel, or a genuine empty
in-range cell. -/
theorem findNextCellAux_cases (g : Grid) :
    ∀ cells (bR bC m : Int),
      ((bR = -1 ∧ bC = -1) ∨
        (∃ r c, r < 9 ∧ c < 9 ∧ g r c = 0 ∧ bR = (r : Int) ∧ bC = (c : Int))) →
      (∀ p ∈ cells, p.1 < 9 ∧ p.2 < 9) →
      (((findNextCellAux g cells bR bC m).1 = -1 ∧
        (findNextCellAux g cells bR bC m).2.1 = -1) ∨
        (∃ r c, r < 9 ∧ c < 9 ∧ g r c = 0 ∧
          (findNextCellAux g cells bR bC m).1 = (r : Int) ∧
          (findNextCellAux g cells bR bC m).2.1 = (c : Int))) := by
  intro cells
  induction cells with
  | nil =>
    intro bR bC m hinv _
    simp only [findNextCellAux]
    by_cases hs : bR = -1 ∧ bC = -1
    · rw [if_pos hs]
      exact Or.inl ⟨rfl, rfl⟩
    · rw [if_neg hs]
      rcases hinv with h | h
      · exact absurd h hs
      · exact Or.inr h
  | cons p rest ih =>
    rcases p with ⟨pr, pc⟩
    intro bR bC m hinv hb
    have hprb := (hb (pr, pc) (List.mem_cons_self _ _)).1
    have hpcb := (hb (pr, pc) (List.mem_cons_self _ _)).2
    have hbrest : ∀ q ∈ rest, q.1 < 9 ∧ q.2 < 9 :=
      fun q hq => hb q (List.mem_cons_of_mem _ hq)
    simp only [findNextCellAux]
    by_cases hpg : g pr pc = 0
    · rw [if_pos hpg]
      by_cases hlt : (countOptions g pr pc : Int) < m
      · rw [if_pos hlt]
        by_cases hp1 : countOptions g pr pc = 1
        · rw [if_pos hp1]
          exact Or.inr ⟨pr, pc, hprb, hpcb, hpg, rfl, rfl⟩
        · rw [if_neg hp1]
          exact ih _ _ _ (Or.inr ⟨pr, pc, hprb, hpcb, hpg, rfl, rfl⟩) hbrest
      · rw [if_neg hlt]
        exact ih _ _ _ hinv hbrest
    · rw [if_neg hpg]
      exact ih _ _ _ hinv hbrest

/-- Either findNextCell returns the sentinel, or it names an empty
in-range cell. -/
theorem findNextCell_cases (g : Grid) :
    ((findNextCell g).1 = -1 ∧ (findNextCell g).2.1 = -1) ∨
      (∃ r c, r < 9 ∧ c < 9 ∧ g r c = 0 ∧
        (findNextCell g).1 = (r : Int) ∧ (findNextCell g).2.1 = (c : Int)) :=
  findNextCellAux_cases g cellsList (-1) (-1) 2147483647
    (Or.inl ⟨rfl, rfl⟩) cellsList_bounds

/-! ### The heuristic solver -/

/-- Number of empty in-range cells, the measure of the heuristic
recursion. -/
def emptyCount (g : Grid) : Nat :=
  cellsList.countP fun p => g p.1 p.2 == 0

theorem emptyCount_le (g : Grid) : emptyCount g ≤ 81 := by
  rw [emptyCount]
  have h := List.countP_le_length (l := cellsList)
    (p := fun p => g p.1 p.2 == 0)
  have hl : cellsList.length = 81 := by decide
  omega

theorem emptyCount_pos (g : Grid) (r c : Nat) (hr : r < 9) (hc : c < 9)
    (hg : g r c = 0) : 0 < emptyCount g := by
  rw [emptyCount, List.countP_pos_iff]
  exact ⟨(r, c), mem_cellsList r c hr hc, by simp [hg]⟩

theorem countP_congr_local {α : Type} (p q : α → Bool) :
    ∀ l : List α, (∀ a ∈ l, p a = q a) → l.countP p = l.countP q := by
  intro l
  induction l with
  | nil => intro _; rfl
  | cons a l ih =>
    intro h
    rw [List.countP_cons, List.countP_cons,
      h a (List.mem_cons_self _ _),
      ih fun b hb => h b (List.mem_cons_of_mem _ hb)]

/-- Filling an empty in-range cell with a digit removes exactly one
empty cell. -/
theorem emptyCount_setCell (g : Grid) (r c k : Nat) (hr : r < 9) (hc : c < 9)
    (hg : g r c = 0) (hk : k ≠ 0) :
    emptyCount (setCell g r c k) + 1 = emptyCount g := by
  obtain ⟨l₁, l₂, hsplit⟩ := List.append_of_mem (mem_cellsList r c hr hc)
  have hnd : (l₁ ++ (r, c) :: l₂).Nodup := by
    rw [← hsplit]; exact cellsList_nodup
  have hmem₁ : (r, c) ∉ l₁ := by
    intro hm
    exact (List.disjoint_of_nodup_append hnd) hm (List.mem_cons_self _ _)
  have hmem₂ : (r, c) ∉ l₂ := by
    have := (List.nodup_append.mp hnd).2.1
    exact (List.nodup_cons.mp this).1
  have hagree : ∀ l : List (Nat × Nat), (r, c) ∉ l →
      l.countP (fun p => setCell g r c k p.1 p.2 == 0) =
        l.countP (fun p => g p.1 p.2 == 0) := by
    intro l hl
    refine countP_congr_local _ _ l fun p hp => ?_
    have hpne : ¬(p.1 = r ∧ p.2 = c) := by
      rintro ⟨h1, h2⟩
      have hpe : p = (r, c) := Prod.ext h1 h2
      exact hl (hpe ▸ hp)
    rw [setCell_other g r c k p.1 p.2 hpne]
  rw [emptyCount, emptyCount, hsplit, List.countP_append, List.countP_append,
    List.countP_cons, List.countP_cons, hagree l₁ hmem₁, hagree l₂ hmem₂]
  have e1 : (setCell g r c k (r, c).1 (r, c).2 == 0) = false := by
    simp [setCell_same, hk]
  have e2 : (g (r, c).1 (r, c).2 == 0) = true := by
    simp [hg]
  rw [e1, e2]
  simp only [Bool.false_eq_true, if_false, if_true]
  omega

theorem solveBoardEfficientF_false :
    ∀ fuel g g', solveBoardEfficientF fuel g = some (false, g') → g' = g := by
  intro fuel
  induction fuel with
  | zero => intro g g' h; cases h
  | succ fuel ih =>
    intro g g' h
    simp only [solveBoardEfficientF] at h
    by_cases hs : (findNextCell g).1 = -1 ∧ (findNextCell g).2.1 = -1
    · rw [if_pos hs] at h; simp at h
    · rw [if_neg hs] at h
      rcases findNextCell_cases g with hsent | ⟨r, c, hr, hc, hg, e1, e2⟩
      · exact absurd hsent hs
      · rw [e1, e2, Int.toNat_natCast, Int.toNat_natCast] at h
        exact tryDigits_false _ r c (fun g₁ g₂ => ih g₁ g₂) digits g g' hg h

theorem solveBoardEfficientF_isSome :
    ∀ fuel g, emptyCount g < fuel → (solveBoardEfficientF fuel g).isSome := by
  intro fuel
  induction fuel with
  | zero => intro g h; omega
  | succ fuel ih =>
    intro g hf
    simp only [solveBoardEfficientF]
    by_cases hs : (findNextCell g).1 = -1 ∧ (findNextCell g).2.1 = -1
    · rw [if_pos hs]; simp
    · rw [if_neg hs]
      rcases findNextCell_cases g with hsent | ⟨r, c, hr, hc, hg, e1, e2⟩
      · exact absurd hsent hs
      · rw [e1, e2, Int.toNat_natCast, Int.toNat_natCast]
        refine tryDigits_isSome _ r c
          (fun g₁ g₂ => solveBoardEfficientF_false fuel g₁ g₂) digits g hg ?_
        intro k hk
        refine ih (setCell g r c k) ?_
        have hdec := emptyCount_setCell g r c k hr hc hg
          (by have := digits_bounds k hk; omega)
        omega

/-- Soundness of the heuristic solver: on success the result extends
the input on non-empty cells, keeps the invariant, and is fully
filled. -/
theorem solveBoardEfficientF_true :
    ∀ fuel g g₁, solveBoardEfficientF fuel g = some (true, g₁) →
      (∀ r' c', g r' c' ≠ 0 → g₁ r' c' = g r' c') ∧
      (Good g → Good g₁) ∧
      (∀ r' c', r' < 9 → c' < 9 → g₁ r' c' ≠ 0) := by
  intro fuel
  induction fuel with
  | zero => intro g g₁ h; cases h
  | succ fuel ih =>
    intro g g₁ h
    simp only [solveBoardEfficientF] at h
    by_cases hs : (findNextCell g).1 = -1 ∧ (findNextCell g).2.1 = -1
    · rw [if_pos hs] at h
      simp only [Option.some.injEq, Prod.mk.injEq, true_and] at h
      subst h
      refine ⟨fun _ _ _ => rfl, id, fun r' c' hr' hc' => ?_⟩
      intro h0
      exact findNextCell_nonsent g r' c' hr' hc' h0 hs
    · rw [if_neg hs] at h
      rcases findNextCell_cases g with hsent | ⟨r, c, hr, hc, hg, e1, e2⟩
      · exact absurd hsent hs
      · rw [e1, e2, Int.toNat_natCast, Int.toNat_natCast] at h
        obtain ⟨k, hkmem, hkv, hrek⟩ :=
          tryDigits_true_ex _ r c
            (fun g₁ g₂ => solveBoardEfficientF_false fuel g₁ g₂)
            digits g g₁ hg h
        obtain ⟨hk1, hk9⟩ := digits_bounds k hkmem
        obtain ⟨he, hgo, hfull⟩ := ih _ _ hrek
        have hset : ∀ r' c', g r' c' ≠ 0 →
            setCell g r c k r' c' = g r' c' := by
          intro r' c' hnz'
          apply setCell_other
          rintro ⟨rfl, rfl⟩
          exact hnz' hg
        refine ⟨?_, ?_, hfull⟩
        · intro r' c' hnz'
          rw [he r' c' (by rw [hset r' c' hnz']; exact hnz'), hset r' c' hnz']
        · intro hgood
          exact hgo (Good_setCell g r c k hr hc hg hk9 hkv hgood)

/-- Completeness of the heuristic solver: when a compatible solution
exists the run cannot return false. -/
theorem solveBoardEfficientF_not_false :
    ∀ fuel g, (∃ s, Solution s ∧ Compatible g s) →
      ∀ g', solveBoardEfficientF fuel g ≠ some (false, g') := by
  intro fuel
  induction fuel with
  | zero => intro g _ g' h; cases h
  | succ fuel ih =>
    intro g hex g' h
    obtain ⟨s, hsol, hcomp⟩ := hex
    simp only [solveBoardEfficientF] at h
    by_cases hs : (findNextCell g).1 = -1 ∧ (findNextCell g).2.1 = -1
    · rw [if_pos hs] at h; simp at h
    · rw [if_neg hs] at h
      rcases findNextCell_cases g with hsent | ⟨r, c, hr, hc, hg, e1, e2⟩
      · exact absurd hsent hs
      · rw [e1, e2, Int.toNat_natCast, Int.toNat_natCast] at h
        have hd1 : 1 ≤ s r c := (hsol.1 r hr c hc).1
        have hd9 : s r c ≤ 9 := (hsol.1 r hr c hc).2
        have hvd : isValid g r c (s r c) = true :=
          isValid_solution g s r c hr hc hg hsol hcomp
        refine tryDigits_not_false _ r c (s r c)
          (fun g₁ g₂ => solveBoardEfficientF_false fuel g₁ g₂)
          digits g hg (mem_digits _ hd1 hd9) hvd ?_ g' h
        intro g'' hcall
        refine ih (setCell g r c (s r c)) ⟨s, hsol, ?_⟩ g'' hcall
        intro r' hr' c' hc' hnz'
        by_cases hcell : r' = r ∧ c' = c
        · rcases hcell with ⟨rfl, rfl⟩
          rw [setCell_same]
        · rw [setCell_other g r c _ r' c' hcell]
          rw [setCell_other g r c _ r' c' hcell] at hnz'
          exact hcomp r' hr' c' hc' hnz'

/-! ### From the pairwise invariant to exactly-once counting -/

/-- Nine in-range cells of a common unit, pairwise distinct, in a full
grid with the pairwise invariant, carry each digit 1-9 exactly once. -/
theorem unitOnce_of_good (g : Grid) (u : Nat → Nat × Nat)
    (hcell : ∀ i < 9, (u i).1 < 9 ∧ (u i).2 < 9)
    (hinj : ∀ i < 9, ∀ j < 9, i ≠ j → u i ≠ u j)
    (hsame : ∀ i < 9, ∀ j < 9, sameUnit (u i) (u j))
    (hgood : Good g)
    (hfull : ∀ r < 9, ∀ c < 9, g r c ≠ 0) : unitOnce g u := by
  obtain ⟨hval, hdist⟩ := hgood
  have hvals : ∀ i < 9, 1 ≤ g (u i).1 (u i).2 ∧ g (u i).1 (u i).2 ≤ 9 := by
    intro i hi
    obtain ⟨h1, h2⟩ := hcell i hi
    have := hfull (u i).1 h1 (u i).2 h2
    have := hval (u i).1 h1 (u i).2 h2
    omega
  have hdiff : ∀ i < 9, ∀ j < 9, i ≠ j →
      g (u i).1 (u i).2 ≠ g (u j).1 (u j).2 := by
    intro i hi j hj hij
    obtain ⟨hi1, hi2⟩ := hcell i hi
    obtain ⟨hj1, hj2⟩ := hcell j hj
    have hne : ((u i).1, (u i).2) ≠ ((u j).1, (u j).2) := by
      rw [Prod.mk.eta, Prod.mk.eta]
      exact hinj i hi j hj hij
    have hsu : sameUnit ((u i).1, (u i).2) ((u j).1, (u j).2) := by
      rw [Prod.mk.eta, Prod.mk.eta]
      exact hsame i hi j hj
    have hnz : g (u i).1 (u i).2 ≠ 0 := hfull (u i).1 hi1 (u i).2 hi2
    exact hdist (u i).1 hi1 (u i).2 hi2 (u j).1 hj1 (u j).2 hj2 hne hsu hnz
  let f : Fin 9 → Fin 9 := fun i =>
    ⟨g (u i.val).1 (u i.val).2 - 1, by
      have := hvals i.val i.isLt
      omega⟩
  have hfinj : Function.Injective f := by
    intro i j hij
    by_contra hne
    have hvne : i.val ≠ j.val := fun e => hne (Fin.ext e)
    have := hdiff i.val i.isLt j.val j.isLt hvne
    have hvi := hvals i.val i.isLt
    have hvj := hvals j.val j.isLt
    have : (f i).val = (f j).val := by rw [hij]
    simp only [f] at this
    omega
  have hfsurj : Function.Surjective f :=
    Finite.surjective_of_injective hfinj
  intro k hk9 hk1
  constructor
  · obtain ⟨i, hfi⟩ := hfsurj ⟨k - 1, by omega⟩
    refine ⟨i.val, i.isLt, ?_⟩
    have : (f i).val = k - 1 := by rw [hfi]
    simp only [f] at this
    have := hvals i.val i.isLt
    omega
  · intro i hi j hj hgi hgj
    by_contra hij
    exact hdiff i hi j hj hij (by rw [hgi, hgj])

/-- A full grid with the invariant satisfies the exactly-once property
for every row, column and block. -/
theorem solved_of_full_good (g : Grid) (hgood : Good g)
    (hfull : ∀ r < 9, ∀ c < 9, g r c ≠ 0) : Solved g := by
  refine ⟨fun r hr => ?_, fun c hc => ?_, fun b hb => ?_⟩
  · refine unitOnce_of_good g (rowCells r) ?_ ?_ ?_ hgood hfull
    · intro i hi; exact ⟨hr, hi⟩
    · intro i _ j _ hij he
      exact hij (congrArg Prod.snd he)
    · intro i _ j _
      exact Or.inl rfl
  · refine unitOnce_of_good g (colCells c) ?_ ?_ ?_ hgood hfull
    · intro i hi; exact ⟨hi, hc⟩
    · intro i _ j _ hij he
      exact hij (congrArg Prod.fst he)
    · intro i _ j _
      exact Or.inr (Or.inl rfl)
  · refine unitOnce_of_good g (blockCells b) ?_ ?_ ?_ hgood hfull
    · intro i hi
      simp only [blockCells]
      omega
    · intro i hi j hj hij he
      have h1 := congrArg Prod.fst he
      have h2 := congrArg Prod.snd he
      simp only [blockCells] at h1 h2
      omega
    · intro i hi j hj
      refine Or.inr (Or.inr ⟨?_, ?_⟩)
      · simp only [blockCells]
        omega
      · simp only [blockCells]
        omega

/-- A full grid with the invariant is a Solution. -/
theorem solution_of_full_good (g : Grid) (hgood : Good g)
    (hfull : ∀ r < 9, ∀ c < 9, g r c ≠ 0) : Solution g := by
  obtain ⟨hval, hdist⟩ := hgood
  refine ⟨fun r hr c hc => ?_, fun r hr c hc r' hr' c' hc' hne hsu => ?_⟩
  · have := hfull r hr c hc
    have := hval r hr c hc
    omega
  · exact hdist r hr c hc r' hr' c' hc' hne hsu (hfull r hr c hc)

/-- A grid with a valid completion satisfies the invariant. -/
theorem good_of_completes (g s : Grid) (h : Completes g s) : Good g := by
  obtain ⟨⟨hrange, hdist⟩, hcomp⟩ := h
  refine ⟨fun r hr c hc => ?_, fun r hr c hc r' hr' c' hc' hne hsu hnz => ?_⟩
  · by_cases h0 : g r c = 0
    · omega
    · have := hcomp r hr c hc h0
      have := (hrange r hr c hc).2
      omega
  · by_cases h0 : g r' c' = 0
    · omega
    · rw [← hcomp r hr c hc hnz, ← hcomp r' hr' c' hc' h0]
      exact hdist r hr c hc r' hr' c' hc' hne hsu

/-- When every empty in-range cell has a non-zero option count, some
remaining cell has count one, and the running minimum is above one,
the scan returns a cell with count one. -/
theorem findNextCellAux_one (g : Grid) :
    ∀ cells (bR bC m : Int),
      (∀ p ∈ cells, p.1 < 9 ∧ p.2 < 9) → 1 < m →
      (∀ r < 9, ∀ c < 9, g r c = 0 → countOptions g r c ≠ 0) →
      (∃ p ∈ cells, g p.1 p.2 = 0 ∧ countOptions g p.1 p.2 = 1) →
      ∃ r c, r < 9 ∧ c < 9 ∧ g r c = 0 ∧ countOptions g r c = 1 ∧
        findNextCellAux g cells bR bC m = ((r : Int), (c : Int), 1) := by
  intro cells
  induction cells with
  | nil =>
    intro bR bC m _ _ _ hex
    rcases hex with ⟨p, hp, _⟩
    cases hp
  | cons p rest ih =>
    rcases p with ⟨pr, pc⟩
    intro bR bC m hb hm hno0 hex
    have hprb := (hb (pr, pc) (List.mem_cons_self _ _)).1
    have hpcb := (hb (pr, pc) (List.mem_cons_self _ _)).2
    have hbrest : ∀ q ∈ rest, q.1 < 9 ∧ q.2 < 9 :=
      fun q hq => hb q (List.mem_cons_of_mem _ hq)
    simp only [findNextCellAux]
    by_cases hpg : g pr pc = 0
    · rw [if_pos hpg]
      by_cases hp1 : countOptions g pr pc = 1
      · rw [hp1]
        rw [if_pos (by omega : ((1 : Nat) : Int) < m)]
        rw [if_pos rfl]
        exact ⟨pr, pc, hprb, hpcb, hpg, hp1, by norm_num⟩
      · have hex' : ∃ q ∈ rest, g q.1 q.2 = 0 ∧ countOptions g q.1 q.2 = 1 := by
          rcases hex with ⟨q, hq, hq0, hq1⟩
          rcases List.mem_cons.mp hq with rfl | hq'
          · exact absurd hq1 hp1
          · exact ⟨q, hq', hq0, hq1⟩
        have hp0 : countOptions g pr pc ≠ 0 := hno0 pr hprb pc hpcb hpg
        by_cases hlt : (countOptions g pr pc : Int) < m
        · rw [if_pos hlt, if_neg hp1]
          exact ih _ _ _ hbrest (by omega) hno0 hex'
        · rw [if_neg hlt]
          exact ih _ _ _ hbrest hm hno0 hex'
    · rw [if_neg hpg]
      have hex' : ∃ q ∈ rest, g q.1 q.2 = 0 ∧ countOptions g q.1 q.2 = 1 := by
        rcases hex with ⟨q, hq, hq0, hq1⟩
        rcases List.mem_cons.mp hq with rfl | hq'
        · exact absurd hq0 hpg
        · exact ⟨q, hq', hq0, hq1⟩
      exact ih _ _ _ hbrest hm hno0 hex'

/-! ### Runs of the wrappers -/

theorem solveBoard_run (g : Grid) :
    ∃ b g₁, solveBoardF 91 g 0 0 = some (b, g₁) ∧ solveBoard g 0 0 = (b, g₁) := by
  have h := solveBoardF_isSome 91 0 0 g (by omega) (by omega) (by omega)
    (by omega)
  rcases hres : solveBoardF 91 g 0 0 with _ | ⟨b, g₁⟩
  · rw [hres] at h; cases h
  · exact ⟨b, g₁, rfl, by rw [solveBoard, hres]; rfl⟩

theorem solveBoardEfficient_run (g : Grid) :
    ∃ b g₁, solveBoardEfficientF 82 g = some (b, g₁) ∧
      solveBoardEfficient g = (b, g₁) := by
  have hle := emptyCount_le g
  have h := solveBoardEfficientF_isSome 82 g (by omega)
  rcases hres : solveBoardEfficientF 82 g with _ | ⟨b, g₁⟩
  · rw [hres] at h; cases h
  · exact ⟨b, g₁, rfl, by rw [solveBoardEfficient, hres]; rfl⟩

/-! ### Concrete grids used as witnesses and counterexamples -/

/-- A complete rule-valid pattern grid. -/
def pattern0 : Grid := fun r c => ((3 * r + r / 3 + c) % 9) + 1

/-- The same pattern shifted so that cell (0,0) holds 7. -/
def pattern6 : Grid := fun r c => ((3 * r + r / 3 + c + 6) % 9) + 1

/-- pattern6 with cell (0,0) emptied; its forced digit is 7. -/
def demoGrid : Grid := fun r c => if r = 0 ∧ c = 0 then 0 else pattern6 r c

/-- pattern0 with cell (0,8) emptied; its forced digit is 9. -/
def demo9Grid : Grid := fun r c => if r = 0 ∧ c = 8 then 0 else pattern0 r c

/-- Every cell holds 1: full but riddled with duplicates. -/
def allOnes : Grid := fun _ _ => 1

/-- The empty grid. -/
def allZeros : Grid := fun _ _ => 0

/-- An unsolvable grid: cell (0,0) is empty while digits 1..8 occupy
the rest of row 0 and digit 9 sits in column 0. -/
def badG : Grid := fun r c =>
  if r = 0 ∧ 0 < c then c else if r = 1 ∧ c = 0 then 9 else 0

/-! ### Claim theorems -/

/-- Claim C3: for every grid, row r, column c and candidate digit k,
isValid returns false if and only if k occurs somewhere in row r,
somewhere in column c, or somewhere in the 3x3 block with origin
(3*(r/3), 3*(c/3)); otherwise it returns true.  The embedding of
isValid is a pure function, so it cannot modify the grid. -/
theorem claim_C3 (g : Grid) (r c k : Nat) :
    isValid g r c k = false ↔
      ((∃ i < 9, g r i = k) ∨ (∃ i < 9, g i c = k) ∨
        ∃ i < 3, ∃ j < 3, g (3 * (r / 3) + i) (3 * (c / 3) + j) = k) :=
  isValid_false_iff g r c k

/-- Claim C6 counterexample: on the all-zero grid, whose values lie in
0..9 and whose cell (0,0) is empty, isValid with digit 0 returns
false, not true as the claim states. -/
theorem claim_C6_counterexample :
    (∀ r < 9, ∀ c < 9, allZeros r c ≤ 9) ∧ allZeros 0 0 = 0 ∧
      isValid allZeros 0 0 0 = false := by decide

/-- Claim C6 amended: querying digit 0 at an empty cell (r, c) with
c < 9 always returns false, because the scan of row r sees the cell's
own 0 at column c. -/
theorem claim_C6_amended (g : Grid) (r c : Nat) (hc : c < 9)
    (hg : g r c = 0) : isValid g r c 0 = false :=
  isValid_zero g r c hc hg

theorem claim_C6_amended_witness : isValid allZeros 3 4 0 = false :=
  claim_C6_amended allZeros 3 4 (by decide) (by decide)

/-- Claim C7: at every empty in-range cell the option count computed
by findNextCell's loop over k = 0..8 equals the number of digits
1..8 accepted by isValid; digit 0 is never counted because the empty
cell's own 0 collides with it, digit 9 is outside the loop, and a
cell with no legal digit among 1..8 is counted 0 even when digit 9 is
legal there. -/
theorem claim_C7 (g : Grid) (r c : Nat) (_hr : r < 9) (hc : c < 9)
    (hg : g r c = 0) :
    countOptions g r c =
      (List.range 8).countP (fun i => isValid g r c (i + 1)) ∧
    isValid g r c 0 = false ∧
    ((∀ k ≤ 8, 1 ≤ k → isValid g r c k = false) →
      countOptions g r c = 0) := by
  refine ⟨countOptions_eq g r c hc hg, isValid_zero g r c hc hg, ?_⟩
  intro hall
  have h1 := hall 1 (by omega) (by omega)
  have h2 := hall 2 (by omega) (by omega)
  have h3 := hall 3 (by omega) (by omega)
  have h4 := hall 4 (by omega) (by omega)
  have h5 := hall 5 (by omega) (by omega)
  have h6 := hall 6 (by omega) (by omega)
  have h7 := hall 7 (by omega) (by omega)
  have h8 := hall 8 (by omega) (by omega)
  rw [countOptions_eq g r c hc hg]
  simp [range8_eq, List.countP_cons, h1, h2, h3, h4, h5, h6, h7, h8]

theorem claim_C7_witness :
    countOptions demo9Grid 0 8 =
      (List.range 8).countP (fun i => isValid demo9Grid 0 8 (i + 1)) ∧
    isValid demo9Grid 0 8 0 = false ∧
    countOptions demo9Grid 0 8 = 0 := by
  have h := claim_C7 demo9Grid 0 8 (by decide) (by decide) (by decide)
  exact ⟨h.1, h.2.1, h.2.2 (by decide)⟩

/-- Claim C2: whenever solveBoard(grid, 0, 0) or
solveBoardEfficient(grid) returns false, the grid handed back equals
the input grid: every cell the solver wrote was reset to 0 on
backtracking. -/
theorem claim_C2 (g : Grid) :
    ((solveBoard g 0 0).1 = false → (solveBoard g 0 0).2 = g) ∧
    ((solveBoardEfficient g).1 = false → (solveBoardEfficient g).2 = g) := by
  constructor
  · obtain ⟨b, g₁, hrun, heq⟩ := solveBoard_run g
    rw [heq]
    intro hf
    cases b
    · exact solveBoardF_false 91 g 0 0 g₁ hrun
    · simp at hf
  · obtain ⟨b, g₁, hrun, heq⟩ := solveBoardEfficient_run g
    rw [heq]
    intro hf
    cases b
    · exact solveBoardEfficientF_false 82 g g₁ hrun
    · simp at hf

theorem claim_C2_witness :
    (solveBoard badG 0 0).2 = badG ∧ (solveBoardEfficient badG).2 = badG :=
  ⟨(claim_C2 badG).1 (by decide), (claim_C2 badG).2 (by decide)⟩

/-- Claim C1 counterexample: the all-ones grid has values in 0..9 and
solveBoard(grid, 0, 0) returns true on it (every cell is filled, so
the recursion only skips), yet the resulting grid is not solved: no
row contains each digit exactly once. -/
theorem claim_C1_counterexample :
    (∀ r < 9, ∀ c < 9, allOnes r c ≤ 9) ∧
      (solveBoard allOnes 0 0).1 = true ∧
      ¬Solved (solveBoard allOnes 0 0).2 := by decide

/-- Claim C1 amended: for every grid with values in 0..9 in which no
two distinct cells of a common row, column or 3x3 block hold the same
non-zero digit, if solveBoard(grid, 0, 0) or solveBoardEfficient(grid)
returns true then in the resulting grid every row, column and block
contains each digit 1-9 exactly once, and every originally non-zero
cell keeps its value. -/
theorem claim_C1_amended (g : Grid) (hgood : Good g) :
    ((solveBoard g 0 0).1 = true →
      Solved (solveBoard g 0 0).2 ∧
      (∀ r < 9, ∀ c < 9, g r c ≠ 0 → (solveBoard g 0 0).2 r c = g r c)) ∧
    ((solveBoardEfficient g).1 = true →
      Solved (solveBoardEfficient g).2 ∧
      (∀ r < 9, ∀ c < 9, g r c ≠ 0 →
        (solveBoardEfficient g).2 r c = g r c)) := by
  constructor
  · obtain ⟨b, g₁, hrun, heq⟩ := solveBoard_run g
    rw [heq]
    intro ht
    cases b
    · simp at ht
    · obtain ⟨hext, hgo, hfull⟩ :=
        solveBoardF_true 91 g 0 0 g₁ hrun (by omega) (by omega)
      have hfull' : ∀ r < 9, ∀ c < 9, g₁ r c ≠ 0 :=
        fun r hr c hc => hfull r c hr hc (by omega)
      exact ⟨solved_of_full_good g₁ (hgo hgood) hfull',
        fun r _ c _ hnz => hext r c hnz⟩
  · obtain ⟨b, g₁, hrun, heq⟩ := solveBoardEfficient_run g
    rw [heq]
    intro ht
    cases b
    · simp at ht
    · obtain ⟨hext, hgo, hfull⟩ := solveBoardEfficientF_true 82 g g₁ hrun
      have hfull' : ∀ r < 9, ∀ c < 9, g₁ r c ≠ 0 :=
        fun r hr c hc => hfull r c hr hc
      exact ⟨solved_of_full_good g₁ (hgo hgood) hfull',
        fun r _ c _ hnz => hext r c hnz⟩

theorem claim_C1_amended_witness :
    Solved (solveBoard demoGrid 0 0).2 ∧
      Solved (solveBoardEfficient demoGrid).2 := by
  have h := claim_C1_amended demoGrid (by decide)
  exact ⟨(h.1 (by decide)).1, (h.2 (by decide)).1⟩

/-- Claim C8: on a fully filled grid findNextCell returns the sentinel
(-1, -1, 0), and solveBoardEfficient immediately returns true with the
grid unchanged. -/
theorem claim_C8 (g : Grid) (hfull : ∀ r < 9, ∀ c < 9, g r c ≠ 0) :
    findNextCell g = (-1, -1, 0) ∧ solveBoardEfficient g = (true, g) := by
  have h1 : findNextCell g = (-1, -1, 0) :=
    findNextCell_of_filled g fun r' c' hr' hc' => hfull r' hr' c' hc'
  refine ⟨h1, ?_⟩
  have h2 : solveBoardEfficientF 82 g = some (true, g) := by
    rw [show (82 : Nat) = 81 + 1 from rfl, solveBoardEfficientF, h1]
    rfl
  rw [solveBoardEfficient, h2]
  rfl

theorem claim_C8_witness :
    findNextCell pattern0 = (-1, -1, 0) ∧
      solveBoardEfficient pattern0 = (true, pattern0) :=
  claim_C8 pattern0 (by decide)

/-- Claim C9 counterexample: with a budget of 81 call frames the
row-major solver exhausts its fuel even on a full grid, so its
recursion depth exceeds 81: the run visits one frame per cursor
position (r, c) with c up to 9 plus the terminal frame at (9, 0),
91 frames in total. -/
theorem claim_C9_counterexample :
    (solveBoardF 81 pattern0 0 0).isNone = true := by decide

/-- Claim C9 amended: every invocation of solveBoard(grid, 0, 0) and
solveBoardEfficient(grid) terminates; the recursion depth is bounded
by 91 frames for the row-major solver (one frame per cursor position,
including the row-wrap positions and the terminal frame) and by 82
frames for the heuristic solver (one frame per consumed empty cell
plus the final sentinel frame). -/
theorem claim_C9_amended :
    (∀ g fuel, 91 ≤ fuel → (solveBoardF fuel g 0 0).isSome) ∧
    (∀ g fuel, 82 ≤ fuel → (solveBoardEfficientF fuel g).isSome) := by
  constructor
  · intro g fuel hf
    exact solveBoardF_isSome fuel 0 0 g (by omega) (by omega) (by omega)
      (by omega)
  · intro g fuel hf
    have := emptyCount_le g
    exact solveBoardEfficientF_isSome fuel g (by omega)

theorem claim_C9_amended_witness :
    (solveBoardF 91 allOnes 0 0).isSome ∧
      (solveBoardEfficientF 82 allOnes).isSome :=
  ⟨claim_C9_amended.1 allOnes 91 (by decide),
    claim_C9_amended.2 allOnes 82 (by decide)⟩

/-- Claim C10: on a grid whose single empty cell is (0,0) and whose
row, column and block constraints force the digit 7 there,
findNextCell returns (0, 0, 1), and solve with the default strategy
fills the cell with 7 and returns true. -/
theorem claim_C10 (g : Grid) (hg : g 0 0 = 0)
    (hothers : ∀ r < 9, ∀ c < 9, ¬(r = 0 ∧ c = 0) → g r c ≠ 0)
    (h7 : isValid g 0 0 7 = true)
    (hforce : ∀ k ≤ 9, 1 ≤ k → k ≠ 7 → isValid g 0 0 k = false) :
    findNextCell g = (0, 0, 1) ∧ solve g false = (true, setCell g 0 0 7) := by
  have hu : ∀ k, 1 ≤ k → k ≤ 9 → k ≠ 7 → isValid g 0 0 k = false :=
    fun k hk1 hk9 hk7 => hforce k hk9 hk1 hk7
  have hcount : countOptions g 0 0 = 1 := by
    have h := countOptions_of_unique g 0 0 7 (by omega) hg (by omega)
      (by omega) h7 hu
    simpa using h
  have hsingle := findNextCell_single g 0 0 1 (by omega) (by omega) hg
    (fun r' c' hr' hc' hne => hothers r' hr' c' hc' hne) hcount (by omega)
  constructor
  · simpa using hsingle
  · have hfull7 : ∀ r' c', r' < 9 → c' < 9 → setCell g 0 0 7 r' c' ≠ 0 := by
      intro r' c' hr' hc'
      by_cases hcell : r' = 0 ∧ c' = 0
      · rcases hcell with ⟨rfl, rfl⟩
        rw [setCell_same]
        omega
      · rw [setCell_other g 0 0 7 r' c' hcell]
        exact hothers r' hr' c' hc' hcell
    have hrec : solveBoardF 90 (setCell g 0 0 7) 0 1 =
        some (true, setCell g 0 0 7) :=
      solveBoardF_filled 90 _ 0 1 (by omega) (by omega) (by omega) (by omega)
        hfull7
    have hf1 := hforce 1 (by omega) (by omega) (by omega)
    have hf2 := hforce 2 (by omega) (by omega) (by omega)
    have hf3 := hforce 3 (by omega) (by omega) (by omega)
    have hf4 := hforce 4 (by omega) (by omega) (by omega)
    have hf5 := hforce 5 (by omega) (by omega) (by omega)
    have hf6 := hforce 6 (by omega) (by omega) (by omega)
    have hsolve : solveBoardF 91 g 0 0 = some (true, setCell g 0 0 7) := by
      rw [show (91 : Nat) = 90 + 1 from rfl, solveBoardF]
      rw [if_neg (by omega : ¬(0 : Nat) = 9)]
      rw [if_neg (by omega : ¬(0 : Nat) = 9)]
      rw [if_neg (by simp [hg] : ¬g 0 0 ≠ 0)]
      simp only [digits, tryDigits, hf1, hf2, hf3, hf4, hf5, hf6, h7,
        Bool.false_eq_true, if_false, if_true, hrec]
    have hmain : solveBoard g 0 0 = (true, setCell g 0 0 7) := by
      rw [solveBoard, hsolve]
      rfl
    calc solve g false = solveBoard g 0 0 := by simp [solve]
      _ = (true, setCell g 0 0 7) := hmain

theorem claim_C10_witness :
    findNextCell demoGrid = (0, 0, 1) ∧
      solve demoGrid false = (true, setCell demoGrid 0 0 7) :=
  claim_C10 demoGrid (by decide) (by decide) (by decide) (by decide)

/-- Claim C5 counterexample: demo9Grid has exactly one empty cell,
(0, 8), whose only legal digit among 1..9 is 9 (so exactly one legal
digit), yet findNextCell returns it with option count 0, not 1, and
not with its correct count of legal digits. -/
theorem claim_C5_counterexample :
    demo9Grid 0 8 = 0 ∧
      (∀ r < 9, ∀ c < 9, ¬(r = 0 ∧ c = 8) → demo9Grid r c ≠ 0) ∧
      isValid demo9Grid 0 8 9 = true ∧
      (∀ k ≤ 8, 1 ≤ k → isValid demo9Grid 0 8 k = false) ∧
      findNextCell demo9Grid = (0, 8, 0) := by decide

/-- Claim C5 amended: counting as findNextCell does (digits 1..8 at an
empty cell), if every empty cell has a non-zero count and some empty
cell has count exactly one, findNextCell returns an empty cell whose
reported option count is 1; and on a grid with exactly one empty cell
whose digits 1..9 are forced to a single digit d, it returns that cell
with count 1 when d is at most 8, and with count 0 when d is 9. -/
theorem claim_C5_amended (g : Grid) :
    ((∀ r < 9, ∀ c < 9, g r c = 0 → countOptions g r c ≠ 0) →
      (∃ r < 9, ∃ c < 9, g r c = 0 ∧ countOptions g r c = 1) →
      ∃ r < 9, ∃ c < 9, g r c = 0 ∧ countOptions g r c = 1 ∧
        findNextCell g = ((r : Int), (c : Int), 1)) ∧
    (∀ r c d, r < 9 → c < 9 → g r c = 0 →
      (∀ r' < 9, ∀ c' < 9, ¬(r' = r ∧ c' = c) → g r' c' ≠ 0) →
      1 ≤ d → d ≤ 9 → isValid g r c d = true →
      (∀ k ≤ 9, 1 ≤ k → k ≠ d → isValid g r c k = false) →
      findNextCell g = ((r : Int), (c : Int),
        if d ≤ 8 then (1 : Int) else 0)) := by
  constructor
  · intro hno0 hex
    have hex' : ∃ p ∈ cellsList, g p.1 p.2 = 0 ∧ countOptions g p.1 p.2 = 1 := by
      rcases hex with ⟨r, hr, c, hc, h0, h1⟩
      exact ⟨(r, c), mem_cellsList r c hr hc, h0, h1⟩
    obtain ⟨r, c, hr, hc, h0, h1, hres⟩ :=
      findNextCellAux_one g cellsList (-1) (-1) 2147483647
        cellsList_bounds (by omega) hno0 hex'
    exact ⟨r, hr, c, hc, h0, h1, by rw [findNextCell]; exact hres⟩
  · intro r c d hr hc h0 hothers hd1 hd9 hv hu
    have hu' : ∀ k, 1 ≤ k → k ≤ 9 → k ≠ d → isValid g r c k = false :=
      fun k a b e => hu k b a e
    have hcount := countOptions_of_unique g r c d hc h0 hd1 hd9 hv hu'
    by_cases hd8 : d ≤ 8
    · rw [if_pos hd8] at hcount ⊢
      have := findNextCell_single g r c 1 hr hc h0
        (fun r' c' a b ne => hothers r' a c' b ne) hcount (by omega)
      simpa using this
    · rw [if_neg hd8] at hcount ⊢
      have := findNextCell_single g r c 0 hr hc h0
        (fun r' c' a b ne => hothers r' a c' b ne) hcount (by omega)
      simpa using this

theorem claim_C5_amended_witness :
    (∃ r < 9, ∃ c < 9, demoGrid r c = 0 ∧ countOptions demoGrid r c = 1 ∧
      findNextCell demoGrid = ((r : Int), (c : Int), 1)) ∧
    findNextCell demoGrid = ((0 : Int), (0 : Int), (1 : Int)) := by
  have h := claim_C5_amended demoGrid
  refine ⟨h.1 (by decide) (by decide), ?_⟩
  have h2 := h.2 0 0 7 (by decide) (by decide) (by decide) (by decide)
    (by decide) (by decide) (by decide) (by decide)
  simpa using h2

/-- Claim C4: for every grid admitting a valid completion, both
solveBoard(grid, 0, 0) and solveBoardEfficient(grid) return true and
leave the grid in some valid completion of the input; and when the
completion is unique, both leave the board's 81 cells in exactly that
completion. -/
theorem claim_C4 (g s : Grid) (hs : Completes g s) :
    (solveBoard g 0 0).1 = true ∧ Completes g (solveBoard g 0 0).2 ∧
    (solveBoardEfficient g).1 = true ∧
    Completes g (solveBoardEfficient g).2 ∧
    ((∀ s₁ s₂, Completes g s₁ → Completes g s₂ → EqOn s₁ s₂) →
      EqOn (solveBoard g 0 0).2 s ∧ EqOn (solveBoardEfficient g).2 s) := by
  obtain ⟨hsol, hcomp⟩ := hs
  have hgood := good_of_completes g s ⟨hsol, hcomp⟩
  obtain ⟨b1, g₁, hrun1, heq1⟩ := solveBoard_run g
  have hb1 : b1 = true := by
    cases b1
    · exact absurd hrun1
        (solveBoardF_not_false 91 g 0 0 (by omega) (by omega)
          ⟨s, hsol, hcomp, fun r' c' _ _ h => absurd h (by omega)⟩ g₁)
    · rfl
  subst hb1
  obtain ⟨hext1, hgo1, hfull1⟩ :=
    solveBoardF_true 91 g 0 0 g₁ hrun1 (by omega) (by omega)
  have hfull1' : ∀ r < 9, ∀ c < 9, g₁ r c ≠ 0 :=
    fun r hr c hc => hfull1 r c hr hc (by omega)
  have hcompletes1 : Completes g g₁ :=
    ⟨solution_of_full_good g₁ (hgo1 hgood) hfull1',
      fun r _ c _ hnz => hext1 r c hnz⟩
  obtain ⟨b2, g₂, hrun2, heq2⟩ := solveBoardEfficient_run g
  have hb2 : b2 = true := by
    cases b2
    · exact absurd hrun2
        (solveBoardEfficientF_not_false 82 g ⟨s, hsol, hcomp⟩ g₂)
    · rfl
  subst hb2
  obtain ⟨hext2, hgo2, hfull2⟩ := solveBoardEfficientF_true 82 g g₂ hrun2
  have hcompletes2 : Completes g g₂ :=
    ⟨solution_of_full_good g₂ (hgo2 hgood)
        (fun r hr c hc => hfull2 r c hr hc),
      fun r _ c _ hnz => hext2 r c hnz⟩
  rw [heq1, heq2]
  exact ⟨rfl, hcompletes1, rfl, hcompletes2, fun huniq =>
    ⟨huniq g₁ s hcompletes1 ⟨hsol, hcomp⟩,
      huniq g₂ s hcompletes2 ⟨hsol, hcomp⟩⟩⟩

theorem claim_C4_witness :
    (solveBoard demoGrid 0 0).1 = true ∧
      Completes demoGrid (solveBoard demoGrid 0 0).2 := by
  have h := claim_C4 demoGrid pattern6 (by decide)
  exact ⟨h.1, h.2.1⟩

end Sudoku
